import Mathlib

/-!
# Verification of the email-summerhouse invoice pipeline

Shallow embedding of the repository's record repository (`src/api/invoices.ts`,
`src/utils/database.ts`), extraction engine (`src/utils/ai-processing.ts`) and
layered storage writer (`src/utils/storage.ts`), together with proofs about the
spec's testable properties.

JavaScript/SQL values are modeled by the inductive type `Json` below; SQL `NULL`
and JavaScript `null` are both `Json.null`, and JavaScript `undefined` (a key
absent from an object, or present with value `undefined`) is modeled by `Option`
at the use sites.
-/

set_option autoImplicit false

namespace Summerhouse

/-- A JavaScript/JSON value (numbers as rationals; `NaN` does not occur in the
modeled code paths). -/
inductive Json where
  | null
  | bool (b : Bool)
  | num (q : Rat)
  | str (s : String)
  | arr (xs : List Json)
  | obj (kvs : List (String × Json))

/-- JavaScript falsiness for the values representable as `Json`:
`null`, `false`, `0` and `""` are falsy. -/
def jsFalsy : Json → Bool
  | Json.null => true
  | Json.bool b => !b
  | Json.num q => q == 0
  | Json.str s => s == ""
  | _ => false

/-- Evaluation of `v || null` in JavaScript: falsy values collapse to `null`. -/
def jsOrNull (v : Json) : Json :=
  if jsFalsy v then Json.null else v

/-- First-binding lookup in a JavaScript-object-like association list
(`obj[k]`, yielding `none` for `undefined`). -/
def objGet {α : Type} (l : List (String × α)) (k : String) : Option α :=
  (l.find? (fun p => p.1 = k)).map (fun p => p.2)

@[simp] theorem objGet_nil {α : Type} (k : String) : objGet ([] : List (String × α)) k = none := rfl

theorem objGet_cons {α : Type} (p : String × α) (l : List (String × α)) (k : String) :
    objGet (p :: l) k = if p.1 = k then some p.2 else objGet l k := by
  by_cases h : p.1 = k <;> simp [objGet, List.find?, h]

/-- First-occurrence deduplication, as performed by the JavaScript idiom
`[...new Set(xs)]` (insertion order, first occurrence kept).
The `seen` accumulator holds the elements already emitted. -/
def dedupSeen : List String → List String → List String
  | [], _ => []
  | a :: l, seen => if a ∈ seen then dedupSeen l seen else a :: dedupSeen l (a :: seen)

/-- Evaluation of `[...new Set(xs)]`. -/
def dedupFirst (l : List String) : List String := dedupSeen l []

theorem mem_dedupSeen {x : String} :
    ∀ (l seen : List String), x ∈ dedupSeen l seen ↔ x ∈ l ∧ x ∉ seen := by
  intro l
  induction l with
  | nil => intro seen; simp [dedupSeen]
  | cons a l ih =>
    intro seen
    by_cases ha : a ∈ seen
    · simp only [dedupSeen, if_pos ha, ih, List.mem_cons]
      constructor
      · exact fun h => ⟨Or.inr h.1, h.2⟩
      · rintro ⟨rfl | hl, hs⟩
        · exact absurd ha hs
        · exact ⟨hl, hs⟩
    · simp only [dedupSeen, List.mem_cons, if_neg ha, ih, not_or]
      constructor
      · rintro (rfl | ⟨hl, hne, hs⟩)
        · exact ⟨Or.inl rfl, ha⟩
        · exact ⟨Or.inr hl, hs⟩
      · rintro ⟨rfl | hl, hs⟩
        · exact Or.inl rfl
        · by_cases hxa : x = a
          · exact Or.inl hxa
          · exact Or.inr ⟨hl, hxa, hs⟩

@[simp] theorem mem_dedupFirst {x : String} {l : List String} :
    x ∈ dedupFirst l ↔ x ∈ l := by
  simp [dedupFirst, mem_dedupSeen]

theorem dedupSeen_nodup : ∀ (l seen : List String), (dedupSeen l seen).Nodup := by
  intro l
  induction l with
  | nil => intro seen; simp [dedupSeen]
  | cons a l ih =>
    intro seen
    by_cases ha : a ∈ seen
    · simp only [dedupSeen, if_pos ha]
      exact ih seen
    · simp only [dedupSeen, if_neg ha, List.nodup_cons]
      refine ⟨?_, ih (a :: seen)⟩
      rw [mem_dedupSeen]
      rintro ⟨-, hs⟩
      exact hs (List.mem_cons_self a seen)

theorem dedupFirst_nodup (l : List String) : (dedupFirst l).Nodup :=
  dedupSeen_nodup l []

theorem dedupSeen_eq_self {l seen : List String} (hn : l.Nodup)
    (hd : ∀ x ∈ l, x ∉ seen) : dedupSeen l seen = l := by
  induction l generalizing seen with
  | nil => simp [dedupSeen]
  | cons a l ih =>
    have ha : a ∉ seen := hd a (List.mem_cons_self a l)
    simp only [dedupSeen, if_neg ha]
    congr 1
    refine ih (List.Nodup.of_cons hn) ?_
    intro x hx
    simp only [List.mem_cons, not_or]
    refine ⟨?_, hd x (List.mem_cons_of_mem a hx)⟩
    rintro rfl
    exact (List.nodup_cons.mp hn).1 hx

theorem dedupFirst_eq_self {l : List String} (hn : l.Nodup) : dedupFirst l = l :=
  dedupSeen_eq_self hn (by simp)

theorem dedupFirst_idem (l : List String) :
    dedupFirst (dedupFirst l) = dedupFirst l :=
  dedupFirst_eq_self (dedupFirst_nodup l)

/-! ## Data model

One row of the `invoices` table, after the repository's migrations
(`0000_add_manually_edited_fields.sql`, `0001_replace_paid_with_status.sql`,
`0002_add_account_balance_column.sql`): the eleven user-editable columns, the
derived `paid_at` timestamp, `items_json`, provenance and bookkeeping columns.

Two TEXT columns hold serialized JSON; the serialization is modeled by the
identity embedding: `manually_edited_fields` stores `none` for SQL NULL and
`some l` for the serialized string array `l` (the code round-trips it through
`JSON.parse`/`JSON.stringify`), and `items_json` stores `none` for NULL and
`some v` for the serialized JSON value `v`.
-/

structure InvoiceRow where
  id : Nat
  message_id : String
  supplier : Json
  amount : Json
  currency : Json
  account_balance : Json
  invoice_id : Json
  account_to_pay_IBAN : Json
  account_to_pay_BIC : Json
  account_to_pay_REG : Json
  account_to_pay_ACCOUNT_NUMBER : Json
  last_payment_date : Json
  items_json : Option Json
  status : Json
  paid_at : Json
  manually_edited_fields : Option (List String)
  created_at : String

/-- One row of the `source_files` table. -/
structure SourceFileRow where
  message_id : String
  filename : String
  blob_uri : String
  created_at : String
  deriving DecidableEq

/-- The relational store: both tables plus the AUTOINCREMENT counter for
`invoices.id`. -/
structure Db where
  invoices : List InvoiceRow
  source_files : List SourceFileRow
  nextId : Nat

/-- Well-formedness maintained by SQLite: primary keys are unique and below the
AUTOINCREMENT counter. -/
def wfDb (db : Db) : Prop :=
  (∀ r ∈ db.invoices, r.id < db.nextId) ∧ (db.invoices.map (fun r => r.id)).Nodup

/-- The closed editable-field set of `src/api/invoices.ts` (`EditableField`). -/
def editableFields : List String :=
  ["supplier", "amount", "currency", "account_balance", "invoice_id",
   "account_to_pay_IBAN", "account_to_pay_BIC", "account_to_pay_REG",
   "account_to_pay_ACCOUNT_NUMBER", "last_payment_date", "status"]

/-- Reading one of the eleven editable columns of a row by its column name. -/
def columnVal (r : InvoiceRow) : String → Option Json
  | "supplier" => some r.supplier
  | "amount" => some r.amount
  | "currency" => some r.currency
  | "account_balance" => some r.account_balance
  | "invoice_id" => some r.invoice_id
  | "account_to_pay_IBAN" => some r.account_to_pay_IBAN
  | "account_to_pay_BIC" => some r.account_to_pay_BIC
  | "account_to_pay_REG" => some r.account_to_pay_REG
  | "account_to_pay_ACCOUNT_NUMBER" => some r.account_to_pay_ACCOUNT_NUMBER
  | "last_payment_date" => some r.last_payment_date
  | "status" => some r.status
  | _ => none

/-- The helper `parseManuallyEditedFields` of `src/api/invoices.ts`; since JSON
serialization is modeled by the identity, parsing is the identity on the
stored column. -/
def parseManuallyEditedFields (s : Option (List String)) : Option (List String) := s

/-- An invoice detail as returned by `getInvoiceById`: the row plus its joined
source files. -/
structure InvoiceDetail where
  invoice : InvoiceRow
  source_files : List SourceFileRow

/-- Translation of `getInvoiceById` (`src/api/invoices.ts`): `SELECT * FROM
invoices WHERE id = ?` via `.first()`, then `SELECT * FROM source_files WHERE
message_id = ?`. -/
def getInvoiceById (db : Db) (id : Nat) : Option InvoiceDetail :=
  (db.invoices.find? (fun r => r.id = id)).map (fun r =>
    { invoice := { r with manually_edited_fields := parseManuallyEditedFields r.manually_edited_fields },
      source_files := db.source_files.filter (fun s => s.message_id = r.message_id) })

/-- Translation of `markInvoiceAsPaid` (`src/api/invoices.ts`): `UPDATE invoices
SET status = 'paid', paid_at = datetime('now') WHERE id = ?`. The D1 `run`
result's `success` is `true` even when no row matches. -/
def markInvoiceAsPaid (db : Db) (id : Nat) (now : String) : Db × Bool :=
  ({ db with invoices := db.invoices.map (fun r =>
      if r.id = id then { r with status := Json.str "paid", paid_at := Json.str now } else r) },
   true)

/-- Translation of `deleteInvoice` (`src/api/invoices.ts`): look up the record's
`message_id`, delete all source files sharing it, then delete the invoice;
return `false` (no-op) when the id does not exist. -/
def deleteInvoice (db : Db) (id : Nat) : Db × Bool :=
  match db.invoices.find? (fun r => r.id = id) with
  | none => (db, false)
  | some inv =>
    ({ db with
        source_files := db.source_files.filter (fun s => ¬ s.message_id = inv.message_id),
        invoices := db.invoices.filter (fun r => ¬ r.id = id) },
     true)

/-! ## Field-level update with provenance tracking -/

/-- A partial-update payload as received over JSON: an object, i.e. an
association list with distinct keys in insertion order. A key mapped to `none`
models a key present on the object with value `undefined`. -/
abbrev Payload := List (String × Option Json)

/-- Evaluation of `updates[f] !== undefined`: returns the value that a column
assignment would bind for field `f`, `none` when the key is absent or maps to
`undefined`. -/
def payloadAssign (updates : Payload) (f : String) : Option Json :=
  (objGet updates f).join

/-- Test for strict equality with the string literal `'paid'`
(`=== 'paid'` in JavaScript). -/
def isPaidLiteral : Json → Bool
  | Json.str s => s == "paid"
  | _ => false

/-- The `paid_at` set-clause that `updateInvoice` adds to the dynamic UPDATE,
decided once from the payload and the previously read `status`. -/
inductive PaidAtClause where
  | setNow
  | setNull
  | keep
  deriving DecidableEq

/-- Decision of lines 237-247 of `src/api/invoices.ts`: if the payload carries
`status`, transitioning to `'paid'` sets `paid_at = datetime('now')`;
otherwise, if the previously read status was `'paid'`, `paid_at` is cleared. -/
def paidAtClause (updates : Payload) (curStatus : Json) : PaidAtClause :=
  match payloadAssign updates "status" with
  | some v =>
    if isPaidLiteral v then PaidAtClause.setNow
    else if isPaidLiteral curStatus then PaidAtClause.setNull
    else PaidAtClause.keep
  | none => PaidAtClause.keep

/-- Application of the dynamic `UPDATE invoices SET ... WHERE id = ?` of
`updateInvoice` to one matching row: each of the eleven editable columns is
assigned when present (with non-`undefined` value) in the payload, `paid_at`
follows the precomputed clause, and `manually_edited_fields` is always
rewritten to the precomputed merged set. -/
def updateRow (updates : Payload) (pc : PaidAtClause) (newEdited : List String)
    (now : String) (r : InvoiceRow) : InvoiceRow :=
  { r with
    supplier := (payloadAssign updates "supplier").getD r.supplier
    amount := (payloadAssign updates "amount").getD r.amount
    currency := (payloadAssign updates "currency").getD r.currency
    account_balance := (payloadAssign updates "account_balance").getD r.account_balance
    invoice_id := (payloadAssign updates "invoice_id").getD r.invoice_id
    account_to_pay_IBAN := (payloadAssign updates "account_to_pay_IBAN").getD r.account_to_pay_IBAN
    account_to_pay_BIC := (payloadAssign updates "account_to_pay_BIC").getD r.account_to_pay_BIC
    account_to_pay_REG := (payloadAssign updates "account_to_pay_REG").getD r.account_to_pay_REG
    account_to_pay_ACCOUNT_NUMBER :=
      (payloadAssign updates "account_to_pay_ACCOUNT_NUMBER").getD r.account_to_pay_ACCOUNT_NUMBER
    last_payment_date := (payloadAssign updates "last_payment_date").getD r.last_payment_date
    status := (payloadAssign updates "status").getD r.status
    paid_at :=
      match pc with
      | PaidAtClause.setNow => Json.str now
      | PaidAtClause.setNull => Json.null
      | PaidAtClause.keep => r.paid_at
    manually_edited_fields := some newEdited }

/-- Translation of `updateInvoice` (`src/api/invoices.ts`): read
`manually_edited_fields` and `status` of the record (`none` result when the id
does not exist), merge the payload's keys (`Object.keys(updates)`, including
keys with `undefined` values and unknown keys) into the provenance set with
`[...new Set(...)]`, run the dynamic UPDATE, and reload the record. -/
def updateInvoice (db : Db) (id : Nat) (updates : Payload) (now : String) :
    Db × Option InvoiceDetail :=
  match db.invoices.find? (fun r => r.id = id) with
  | none => (db, none)
  | some cur =>
    let existingEditedFields := (parseManuallyEditedFields cur.manually_edited_fields).getD []
    let fieldsBeingUpdated := updates.map (fun p => p.1)
    let newEditedFields := dedupFirst (existingEditedFields ++ fieldsBeingUpdated)
    let pc := paidAtClause updates cur.status
    let db' := { db with invoices := db.invoices.map (fun r =>
        if r.id = id then updateRow updates pc newEditedFields now r else r) }
    (db', getInvoiceById db' id)

/-- The legacy-flag translation and key removal of the PATCH handler in
`src/index.ts`: `body.paid === true && !body.status` turns into
`body.status = 'paid'`, then the `paid` key is destructured away. -/
def legacyPaidCond (body : Payload) : Bool :=
  (match payloadAssign body "paid" with
   | some (Json.bool b) => b
   | _ => false) &&
  (match objGet body "status" with
   | none => true
   | some none => true
   | some (some v) => jsFalsy v)

/-- Assignment `body.status = 'paid'` on a JavaScript object: replace the value
in place when the key exists, append it otherwise. -/
def legacySetStatus (body : Payload) : Payload :=
  if legacyPaidCond body then
    if body.any (fun p => p.1 = "status") then
      body.map (fun p => if p.1 = "status" then ("status", some (Json.str "paid")) else p)
    else
      body ++ [("status", some (Json.str "paid"))]
  else body

def applyLegacyPaid (body : Payload) : Payload :=
  (legacySetStatus body).filter (fun p => ¬ p.1 = "paid")

/-! ## Extraction engine (`src/utils/ai-processing.ts`) -/

/-- The structured result of the LLM analysis (`InvoiceExtraction`). Fields keep
whatever JavaScript value the coercion step produced. -/
structure InvoiceExtraction where
  items : Json
  supplier : Json
  amount : Json
  currency : Json
  invoiceId : Json
  accountIBAN : Json
  accountBIC : Json
  accountREG : Json
  accountNumber : Json
  lastPaymentDate : Json
  sourceFileReference : Json

/-- One normalized document handed to `extractInvoiceInfo`. -/
structure MarkdownFile where
  filename : String
  content : String

/-- Property access `j[k]` on a decoded JSON value: `undefined` (`none`) unless
the value is an object carrying the key. -/
def jsGet : Json → String → Option Json
  | Json.obj kvs, k => objGet kvs k
  | _, _ => none

/-- Evaluation of `extracted.f || null` on the decoded object. -/
def coerceField (j : Json) (k : String) : Json :=
  match jsGet j k with
  | some v => jsOrNull v
  | none => Json.null

/-- Evaluation of `extracted.sourceFileReference || sourceFiles[0] || null` and
of the failure path's `sourceFiles[0] || null`: the first filename is used only
when it exists and is truthy (non-empty). -/
def sfrFallback : List String → Json
  | [] => Json.null
  | s :: _ => if s = "" then Json.null else Json.str s

/-- The all-null default structure returned by the `catch` branch of
`extractInvoiceInfo`. -/
def fallbackExtraction (sourceFiles : List String) : InvoiceExtraction :=
  { items := Json.arr []
    supplier := Json.null
    amount := Json.null
    currency := Json.null
    invoiceId := Json.null
    accountIBAN := Json.null
    accountBIC := Json.null
    accountREG := Json.null
    accountNumber := Json.null
    lastPaymentDate := Json.null
    sourceFileReference := sfrFallback sourceFiles }

/-- The field-by-field coercion applied to the decoded JSON object on the
success path of `extractInvoiceInfo` (`extracted.items || []`,
`extracted.supplier || null`, ...). -/
def coerceExtraction (j : Json) (sourceFiles : List String) : InvoiceExtraction :=
  { items :=
      (match jsGet j "items" with
       | some v => if jsFalsy v then Json.arr [] else v
       | none => Json.arr [])
    supplier := coerceField j "supplier"
    amount := coerceField j "amount"
    currency := coerceField j "currency"
    invoiceId := coerceField j "invoiceId"
    accountIBAN := coerceField j "accountIBAN"
    accountBIC := coerceField j "accountBIC"
    accountREG := coerceField j "accountREG"
    accountNumber := coerceField j "accountNumber"
    lastPaymentDate := coerceField j "lastPaymentDate"
    sourceFileReference :=
      (match jsGet j "sourceFileReference" with
       | some v => if jsFalsy v then sfrFallback sourceFiles else v
       | none => sfrFallback sourceFiles) }

/-- Outcome of the opaque model call: it either throws, or resolves to the
response text `result.response || result.text || JSON.stringify(result)`. -/
inductive LlmOutcome where
  | throw
  | response (text : String)

/-- Drop of the prefix strictly before the first occurrence of `c`; `none` when
`c` does not occur. -/
def dropUntilChar (c : Char) : List Char → Option (List Char)
  | [] => none
  | a :: as => if a = c then some (a :: as) else dropUntilChar c as

/-- Semantics of `responseText.match` with the regular expression written
slash, backslash-x7b, bracket, backslash-s, backslash-S, close-bracket, star,
backslash-x7d, slash in the source (open brace, any characters, close brace):
the leftmost match of a greedy star runs from the first open brace to the last
close brace of the whole text, provided that close brace comes after the open
brace; otherwise there is no match. -/
def jsonMatch (cs : List Char) : Option (List Char) :=
  match dropUntilChar '\x7b' cs with
  | none => none
  | some suffix =>
    match dropUntilChar '\x7d' suffix.reverse with
    | none => none
    | some revMatch => some revMatch.reverse

/-- Translation of `extractInvoiceInfo` (`src/utils/ai-processing.ts`). The
LLM call and `JSON.parse` are opaque external capabilities, passed in as the
outcome `llm` and the decoder `jsonParse` (`jsonParse` returns `none` when
`JSON.parse` would throw). Every failure — a throwing model call, no regex
match, or a failing decode — is caught and resolves to the all-null fallback. -/
def extractInvoiceInfo (jsonParse : String → Option Json) (llm : LlmOutcome)
    (markdownContents : List MarkdownFile) : InvoiceExtraction :=
  let sourceFiles := markdownContents.map (fun f => f.filename)
  match llm with
  | LlmOutcome.throw => fallbackExtraction sourceFiles
  | LlmOutcome.response text =>
    match jsonMatch text.data with
    | some m =>
      match jsonParse (String.mk m) with
      | some extracted => coerceExtraction extracted sourceFiles
      | none => fallbackExtraction sourceFiles
    | none => fallbackExtraction sourceFiles

/-- Modelled from the spec: the "first balanced-brace substring" of a text,
which §4.3 and §9 of the spec claim is the substring handed to the schema
decode. Scans to the first open brace, then accumulates until the brace depth
returns to zero. Used only to compare the spec's description against the
code's greedy regex. -/
def takeBalanced : List Char → Nat → List Char → Option (List Char)
  | [], _, _ => none
  | c :: cs, depth, acc =>
    if c = '\x7b' then takeBalanced cs (depth + 1) (c :: acc)
    else if c = '\x7d' then
      if depth = 1 then some (c :: acc).reverse
      else if depth = 0 then none
      else takeBalanced cs (depth - 1) (c :: acc)
    else takeBalanced cs depth (c :: acc)

/-- Modelled from the spec: first balanced-brace substring of the whole text. -/
def firstBalancedBraces (cs : List Char) : Option (List Char) := do
  let suffix ← dropUntilChar '\x7b' cs
  takeBalanced suffix 0 []

/-- Modelled from the spec: the extraction step as §4.3/§9 describe it —
"extracts the first balanced-brace substring, attempts schema decode, and on
any failure at any step substitutes the all-null schema value". Identical to
the translated code except for which substring is decoded. -/
def extractInvoiceInfoSpec (jsonParse : String → Option Json) (llm : LlmOutcome)
    (markdownContents : List MarkdownFile) : InvoiceExtraction :=
  let sourceFiles := markdownContents.map (fun f => f.filename)
  match llm with
  | LlmOutcome.throw => fallbackExtraction sourceFiles
  | LlmOutcome.response text =>
    match firstBalancedBraces text.data with
    | some m =>
      match jsonParse (String.mk m) with
      | some extracted => coerceExtraction extracted sourceFiles
      | none => fallbackExtraction sourceFiles
    | none => fallbackExtraction sourceFiles

/-! ## Record creation (`src/utils/database.ts`) -/

/-- One entry of the `sourceFiles` argument of `insertInvoice`. -/
structure SourceFileInput where
  filename : String
  blob_uri : String

/-- Evaluation of `v.length > 0` on the typed shapes of `extraction.items`
(an array or, defensively, a string); other values have no `length` property,
and `undefined > 0` is `false`. -/
def jsLengthPos : Json → Bool
  | Json.arr xs => !xs.isEmpty
  | Json.str s => !(s == "")
  | _ => false

/-- The row produced by the INSERT of `insertInvoice`: each extraction field is
bound as `extraction.f || null`, `items_json` only for a non-empty items value,
and the remaining columns take their schema defaults. -/
def insertedRow (db : Db) (messageId : String) (extraction : InvoiceExtraction)
    (now : String) : InvoiceRow :=
  { id := db.nextId
    message_id := messageId
    supplier := jsOrNull extraction.supplier
    amount := jsOrNull extraction.amount
    currency := jsOrNull extraction.currency
    account_balance := Json.null
    invoice_id := jsOrNull extraction.invoiceId
    account_to_pay_IBAN := jsOrNull extraction.accountIBAN
    account_to_pay_BIC := jsOrNull extraction.accountBIC
    account_to_pay_REG := jsOrNull extraction.accountREG
    account_to_pay_ACCOUNT_NUMBER := jsOrNull extraction.accountNumber
    last_payment_date := jsOrNull extraction.lastPaymentDate
    items_json :=
      if !(jsFalsy extraction.items) && jsLengthPos extraction.items then
        some extraction.items
      else none
    status := Json.str "unpaid"
    paid_at := Json.null
    manually_edited_fields := none
    created_at := now }

/-- The batched `source_files` INSERT of `insertInvoice`. -/
def insertedSourceFiles (messageId : String) (sourceFiles : List SourceFileInput)
    (now : String) : List SourceFileRow :=
  sourceFiles.map (fun f => { message_id := messageId, filename := f.filename,
                              blob_uri := f.blob_uri, created_at := now })

/-- Translation of `insertInvoice` (`src/utils/database.ts`) against the
migrated schema: one INSERT returning the new row, followed by a batched insert
of the source files; the UNIQUE constraint on `message_id` rejects
duplicates. -/
def insertInvoice (db : Db) (messageId : String) (extraction : InvoiceExtraction)
    (sourceFiles : List SourceFileInput) (now : String) :
    Except String (Db × InvoiceRow) :=
  if db.invoices.any (fun r => r.message_id = messageId) then
    Except.error "UNIQUE constraint failed: invoices.message_id"
  else
    Except.ok
      ({ invoices := db.invoices ++ [insertedRow db messageId extraction now]
         source_files := db.source_files ++ insertedSourceFiles messageId sourceFiles now
         nextId := db.nextId + 1 },
       insertedRow db messageId extraction now)

/-! ## Layered storage paths (`src/utils/storage.ts`) -/

/-- Evaluation of `messageId.replace` with the pattern "not a-zA-Z0-9" and the
replacement `'_'`: every non-alphanumeric character becomes an underscore. -/
def sanitizeMessageId (s : String) : String :=
  String.mk (s.data.map (fun c => if c.isAlphanum then c else '_'))

/-- Evaluation of `filename.replace` with the pattern "not a-zA-Z0-9._-" and
the replacement `'_'`. -/
def sanitizeFilename (s : String) : String :=
  String.mk (s.data.map (fun c =>
    if c.isAlphanum || c = '.' || c = '_' || c = '-' then c else '_'))

/-- Translation of `getBronzePath`: the filename is interpolated verbatim. -/
def getBronzePath (timestamp messageId filename : String) : String :=
  "bronze/" ++ timestamp ++ "/" ++ sanitizeMessageId messageId ++ "/" ++ filename

/-- Translation of `getSilverPath`. -/
def getSilverPath (timestamp messageId filename : String) : String :=
  "silver/" ++ timestamp ++ "/" ++ sanitizeMessageId messageId ++ "/" ++
    sanitizeFilename filename ++ ".md"

/-- Translation of `getGoldPath`. -/
def getGoldPath (timestamp messageId : String) : String :=
  "gold/" ++ timestamp ++ "/" ++ sanitizeMessageId messageId ++ "/extracted.json"

/-- The filenames of one bronze-layer persist call: the raw email, the metadata
blob, and each attachment. -/
structure BronzeAttachment where
  filename : String
  contentType : String

/-- Translation of `persistToBronzeLayer`, modeling the blob-store writes by the
list of paths the function writes to and returns. -/
def persistToBronzeLayer (messageId : String) (attachments : List BronzeAttachment)
    (timestamp : String) : List String :=
  [getBronzePath timestamp messageId "email.raw",
   getBronzePath timestamp messageId "metadata.json"] ++
    attachments.map (fun a => getBronzePath timestamp messageId a.filename)

/-- Modelled from the spec: a message id "stripped of everything but
alphanumerics" (§4.2) — offending characters removed, not replaced. -/
def stripMessageIdSpec (s : String) : String :=
  String.mk (s.data.filter (fun c => c.isAlphanum))

/-- Modelled from the spec: a filename stripped of everything but alphanumerics
and the characters dot, underscore and hyphen (§4.2). -/
def stripFilenameSpec (s : String) : String :=
  String.mk (s.data.filter (fun c => c.isAlphanum || c = '.' || c = '_' || c = '-'))

/-- Modelled from the spec: the bronze path as the claim describes it, built
from the stripped message id and the stripped filename. -/
def bronzePathSpec (timestamp messageId filename : String) : String :=
  "bronze/" ++ timestamp ++ "/" ++ stripMessageIdSpec messageId ++ "/" ++
    stripFilenameSpec filename

/-! ## Helper lemmas -/

theorem updateRow_id (updates : Payload) (pc : PaidAtClause) (ne : List String)
    (now : String) (r : InvoiceRow) : (updateRow updates pc ne now r).id = r.id := rfl

theorem updateRow_message_id (updates : Payload) (pc : PaidAtClause) (ne : List String)
    (now : String) (r : InvoiceRow) :
    (updateRow updates pc ne now r).message_id = r.message_id := rfl

@[simp] theorem payloadAssign_nil (f : String) : payloadAssign [] f = none := rfl

theorem find?_id_map (g : InvoiceRow → InvoiceRow) (hg : ∀ r, (g r).id = r.id)
    (l : List InvoiceRow) (id : Nat) :
    (l.map g).find? (fun r => r.id = id) = (l.find? (fun r => r.id = id)).map g := by
  induction l with
  | nil => rfl
  | cons a l ih =>
    by_cases h : a.id = id
    · rw [List.map_cons, List.find?_cons_of_pos, List.find?_cons_of_pos]
      · rfl
      · simpa using h
      · simpa using (hg a).symm ▸ h
    · rw [List.map_cons, List.find?_cons_of_neg, List.find?_cons_of_neg, ih]
      · simpa using h
      · simpa using (hg a).symm ▸ h

theorem find?_append_none {α : Type} (p : α → Bool) (l₁ l₂ : List α)
    (h : l₁.find? p = none) : (l₁ ++ l₂).find? p = l₂.find? p := by
  induction l₁ with
  | nil => rfl
  | cons a l ih =>
    rw [List.find?_eq_none] at h
    have ha : ¬ p a = true := h a (List.mem_cons_self a l)
    rw [List.cons_append, List.find?_cons_of_neg _ ha, ih]
    rw [List.find?_eq_none]
    exact fun x hx => h x (List.mem_cons_of_mem a hx)

theorem mem_of_objGet {α : Type} {l : List (String × α)} {k : String} {v : α}
    (h : objGet l k = some v) : (k, v) ∈ l := by
  unfold objGet at h
  cases hf : l.find? (fun p => p.1 = k) with
  | none => rw [hf] at h; simp at h
  | some p =>
    rw [hf] at h
    simp only [Option.map_some', Option.some.injEq] at h
    have hk : p.1 = k := by simpa using List.find?_some hf
    have hm : p ∈ l := List.mem_of_find?_eq_some hf
    have : p = (k, v) := Prod.ext hk h
    exact this ▸ hm

theorem isPaidLiteral_iff (v : Json) : isPaidLiteral v = true ↔ v = Json.str "paid" := by
  cases v <;> simp [isPaidLiteral]

/-- With unique primary keys, any member matching the looked-up id is the
record that `.first()` returned. -/
theorem eq_of_mem_of_find? {db : Db} {id : Nat} {cur r : InvoiceRow}
    (hwf : wfDb db) (hfind : db.invoices.find? (fun x => x.id = id) = some cur)
    (hr : r ∈ db.invoices) (hid : r.id = id) : r = cur := by
  have hcurmem : cur ∈ db.invoices := List.mem_of_find?_eq_some hfind
  have hcurid : cur.id = id := by simpa using List.find?_some hfind
  exact List.inj_on_of_nodup_map hwf.2 hr hcurmem (by rw [hid, hcurid])

theorem getInvoiceById_of_find (db : Db) (id : Nat) (r : InvoiceRow)
    (h : db.invoices.find? (fun x => x.id = id) = some r) :
    getInvoiceById db id =
      some { invoice := r,
             source_files := db.source_files.filter (fun s => s.message_id = r.message_id) } := by
  unfold getInvoiceById
  rw [h]
  rfl

theorem getInvoiceById_of_find_none (db : Db) (id : Nat)
    (h : db.invoices.find? (fun x => x.id = id) = none) :
    getInvoiceById db id = none := by
  unfold getInvoiceById
  rw [h]
  rfl

/-- Characterization of a successful `updateInvoice` call: the UPDATE is applied
to every row matching the id, and the reloaded detail is the updated record
with its joined source files. -/
theorem updateInvoice_of_find (db : Db) (id : Nat) (updates : Payload) (now : String)
    (cur : InvoiceRow) (hfind : db.invoices.find? (fun r => r.id = id) = some cur) :
    updateInvoice db id updates now =
      ({ db with invoices := db.invoices.map (fun r =>
           if r.id = id then
             updateRow updates (paidAtClause updates cur.status)
               (dedupFirst ((cur.manually_edited_fields.getD []) ++ updates.map (fun p => p.1))) now r
           else r) },
       some { invoice := updateRow updates (paidAtClause updates cur.status)
                (dedupFirst ((cur.manually_edited_fields.getD []) ++ updates.map (fun p => p.1))) now cur
              source_files := db.source_files.filter
                (fun s => s.message_id = cur.message_id) }) := by
  have hcur : cur.id = id := by simpa using List.find?_some hfind
  set pc := paidAtClause updates cur.status with hpc
  set ne := dedupFirst ((cur.manually_edited_fields.getD []) ++ updates.map (fun p => p.1)) with hne
  set g : InvoiceRow → InvoiceRow :=
    fun r => if r.id = id then updateRow updates pc ne now r else r with hg
  have hgid : ∀ r, (g r).id = r.id := by
    intro r
    by_cases h : r.id = id <;> simp [hg, h, updateRow_id]
  unfold updateInvoice
  rw [hfind]
  simp only [parseManuallyEditedFields]
  have hfind' : (db.invoices.map g).find? (fun r => r.id = id) = some (g cur) := by
    rw [find?_id_map g hgid, hfind]
    rfl
  have hgcur : g cur = updateRow updates pc ne now cur := by
    simp [hg, hcur]
  have hby := getInvoiceById_of_find
    { db with invoices := db.invoices.map g } id (g cur) hfind'
  rw [hgcur] at hby
  rw [show ({ db with invoices := db.invoices.map g } : Db).source_files = db.source_files from rfl,
      updateRow_message_id] at hby
  exact Prod.ext rfl hby

theorem columnVal_updateRow_assigned (updates : Payload) (pc : PaidAtClause)
    (ne : List String) (now : String) (r : InvoiceRow) (f : String) (v : Json)
    (hf : f ∈ editableFields) (hv : payloadAssign updates f = some v) :
    columnVal (updateRow updates pc ne now r) f = some v := by
  fin_cases hf <;> simp [columnVal, updateRow, hv]

theorem columnVal_updateRow_unassigned (updates : Payload) (pc : PaidAtClause)
    (ne : List String) (now : String) (r : InvoiceRow) (f : String)
    (hf : f ∈ editableFields) (hv : payloadAssign updates f = none) :
    columnVal (updateRow updates pc ne now r) f = columnVal r f := by
  fin_cases hf <;> simp [columnVal, updateRow, hv]

/-- A claim-level payload over the editable-field set: every key present with an
actual (possibly null) value. -/
def toPayload (U : List (String × Json)) : Payload :=
  U.map (fun p => (p.1, some p.2))

theorem payloadAssign_toPayload (U : List (String × Json)) (f : String) :
    payloadAssign (toPayload U) f = objGet U f := by
  induction U with
  | nil => rfl
  | cons p l ih =>
    by_cases h : p.1 = f
    · simp [payloadAssign, toPayload, objGet_cons, h]
    · simp only [toPayload, List.map_cons, payloadAssign, objGet_cons, h, if_neg h]
      simpa [payloadAssign, toPayload] using ih

@[simp] theorem keys_toPayload (U : List (String × Json)) :
    (toPayload U).map (fun p => p.1) = U.map (fun p => p.1) := by
  simp [toPayload]

/-! ## Sample data used by the witnesses -/

def emptyDb : Db := { invoices := [], source_files := [], nextId := 1 }

def sampleRow : InvoiceRow :=
  { id := 1
    message_id := "msg-1"
    supplier := Json.str "Acme"
    amount := Json.num 10
    currency := Json.str "DKK"
    account_balance := Json.null
    invoice_id := Json.null
    account_to_pay_IBAN := Json.null
    account_to_pay_BIC := Json.null
    account_to_pay_REG := Json.null
    account_to_pay_ACCOUNT_NUMBER := Json.null
    last_payment_date := Json.null
    items_json := none
    status := Json.str "unpaid"
    paid_at := Json.null
    manually_edited_fields := none
    created_at := "t0" }

def sampleDb : Db :=
  { invoices := [sampleRow]
    source_files := [{ message_id := "msg-1", filename := "a.pdf",
                       blob_uri := "bronze/t/m/a.pdf", created_at := "t0" }]
    nextId := 2 }

def samplePaidRow : InvoiceRow :=
  { sampleRow with id := 1, status := Json.str "paid", paid_at := Json.str "t1" }

def samplePaidDb : Db := { sampleDb with invoices := [samplePaidRow] }

/-! ## Claim theorems -/

/-- The invariant of §3 and claim C2: a record's status is `'paid'` exactly when
its `paid_at` timestamp is non-null. -/
def paidStatusInv (r : InvoiceRow) : Prop :=
  (r.status = Json.str "paid") ↔ r.paid_at ≠ Json.null

/-- The invariant of claim C2, over the whole invoices table. -/
def dbPaidInv (db : Db) : Prop := ∀ r ∈ db.invoices, paidStatusInv r

/-- C2: every operation that creates or mutates an invoice record — the initial
insert, `markInvoiceAsPaid`, and every `updateInvoice` call with any payload —
preserves the invariant that `status = 'paid'` iff `paid_at` is non-null: a
transition to `'paid'` sets `paid_at`, a transition away clears it, and a
payload omitting `status` leaves `paid_at` untouched. -/
theorem C2_paid_status_invariant_preserved (db : Db)
    (hwf : wfDb db) (hinv : dbPaidInv db) :
    (∀ mid ex sf now db' row,
        insertInvoice db mid ex sf now = Except.ok (db', row) → dbPaidInv db') ∧
    (∀ id now, dbPaidInv (markInvoiceAsPaid db id now).1) ∧
    (∀ id updates now, dbPaidInv (updateInvoice db id updates now).1) := by
  refine ⟨?_, ?_, ?_⟩
  · intro mid ex sf now db' row hok
    unfold insertInvoice at hok
    by_cases hdup : db.invoices.any (fun r => r.message_id = mid)
    · rw [if_pos hdup] at hok; cases hok
    · rw [if_neg hdup] at hok
      simp only [Except.ok.injEq, Prod.mk.injEq] at hok
      obtain ⟨h1, -⟩ := hok
      intro r hr
      rw [← h1] at hr
      simp only [List.mem_append, List.mem_singleton] at hr
      rcases hr with hr | rfl
      · exact hinv r hr
      · simp [paidStatusInv, insertedRow]
  · intro id now r hr
    unfold markInvoiceAsPaid at hr
    simp only [List.mem_map] at hr
    obtain ⟨x, hx, rfl⟩ := hr
    by_cases h : x.id = id
    · simp [h, paidStatusInv]
    · simpa [h] using hinv x hx
  · intro id updates now
    cases hfind : db.invoices.find? (fun r => r.id = id) with
    | none =>
      have hno : updateInvoice db id updates now = (db, none) := by
        unfold updateInvoice; rw [hfind]
      rw [hno]
      exact hinv
    | some cur =>
      rw [updateInvoice_of_find db id updates now cur hfind]
      intro r hr
      simp only [List.mem_map] at hr
      obtain ⟨x, hx, rfl⟩ := hr
      by_cases h : x.id = id
      · have hxcur : x = cur := eq_of_mem_of_find? hwf hfind hx h
        subst hxcur
        rw [if_pos h]
        unfold paidStatusInv updateRow paidAtClause
        cases hpa : payloadAssign updates "status" with
        | none => simpa [hpa] using hinv x hx
        | some v =>
          cases hpl : isPaidLiteral v with
          | true =>
            have hv : v = Json.str "paid" := (isPaidLiteral_iff v).mp hpl
            subst hv
            simp [hpa, hpl]
          | false =>
            have hv : ¬ v = Json.str "paid" := by
              intro hc; rw [(isPaidLiteral_iff v).mpr hc] at hpl; cases hpl
            cases hps : isPaidLiteral x.status with
            | true => simp [hpa, hpl, hps, hv]
            | false =>
              have hxs : ¬ x.status = Json.str "paid" := by
                intro hc; rw [(isPaidLiteral_iff x.status).mpr hc] at hps; cases hps
              have hnull : x.paid_at = Json.null := by
                by_contra hne
                exact hxs ((hinv x hx).mpr hne)
              simp [hpa, hpl, hps, hv, hnull]
      · rw [if_neg h]
        exact hinv x hx

/-- Closed witness for C2 at a concrete one-record database. -/
theorem C2_paid_status_invariant_preserved_witness :
    wfDb sampleDb ∧ dbPaidInv sampleDb ∧
    ((∀ mid ex sf now db' row,
        insertInvoice sampleDb mid ex sf now = Except.ok (db', row) → dbPaidInv db') ∧
     (∀ id now, dbPaidInv (markInvoiceAsPaid sampleDb id now).1) ∧
     (∀ id updates now, dbPaidInv (updateInvoice sampleDb id updates now).1)) := by
  have hwf : wfDb sampleDb := by
    constructor
    · intro r hr
      simp only [sampleDb, List.mem_singleton] at hr
      subst hr
      decide
    · simp [sampleDb]
  have hinv : dbPaidInv sampleDb := by
    intro r hr
    simp only [sampleDb, List.mem_singleton] at hr
    subst hr
    simp [paidStatusInv, sampleRow]
  exact ⟨hwf, hinv, C2_paid_status_invariant_preserved sampleDb hwf hinv⟩

/-- C7: `delete(id)` looks up the record's `message_id`, deletes every source
file sharing it together with the invoice, and returns `false` as a no-op when
the id does not exist; after a successful delete, `getById(id)` returns the
absence sentinel and no source-file record with that `message_id` remains
queryable. -/
theorem C7_delete_cascade_and_missing_noop (db : Db) (id : Nat) :
    (db.invoices.find? (fun r => r.id = id) = none → deleteInvoice db id = (db, false)) ∧
    (∀ inv, db.invoices.find? (fun r => r.id = id) = some inv →
      (deleteInvoice db id).2 = true ∧
      getInvoiceById (deleteInvoice db id).1 id = none ∧
      (∀ s ∈ (deleteInvoice db id).1.source_files, s.message_id ≠ inv.message_id)) := by
  constructor
  · intro h
    unfold deleteInvoice
    rw [h]
  · intro inv hfind
    unfold deleteInvoice
    rw [hfind]
    refine ⟨rfl, ?_, ?_⟩
    · apply getInvoiceById_of_find_none
      rw [List.find?_eq_none]
      intro r hr
      have := (List.mem_filter.mp hr).2
      simp only [decide_not, Bool.not_eq_true', decide_eq_false_iff_not] at this
      simpa using this
    · intro s hs
      have := (List.mem_filter.mp hs).2
      simpa using this

/-- Closed witness for C7: a successful cascade delete on the sample database,
and the no-op result for a missing id. -/
theorem C7_delete_cascade_and_missing_noop_witness :
    ((deleteInvoice sampleDb 1).2 = true ∧
      getInvoiceById (deleteInvoice sampleDb 1).1 1 = none ∧
      (∀ s ∈ (deleteInvoice sampleDb 1).1.source_files, s.message_id ≠ sampleRow.message_id)) ∧
    deleteInvoice sampleDb 7 = (sampleDb, false) :=
  ⟨(C7_delete_cascade_and_missing_noop sampleDb 1).2 sampleRow rfl,
   (C7_delete_cascade_and_missing_noop sampleDb 7).1 rfl⟩

/-- C10: a payload carrying `status = 'paid'` always sets `paid_at` to the
current timestamp, even when the record's current status is already `'paid'`:
re-confirming an already-paid record refreshes its `paid_at` value. -/
theorem C10_status_paid_always_refreshes_paid_at (db : Db) (id : Nat)
    (updates : Payload) (now : String) (r : InvoiceRow)
    (hfind : db.invoices.find? (fun x => x.id = id) = some r)
    (hstatus : payloadAssign updates "status" = some (Json.str "paid")) :
    ∃ d, (updateInvoice db id updates now).2 = some d ∧
      d.invoice.paid_at = Json.str now := by
  rw [updateInvoice_of_find db id updates now r hfind]
  refine ⟨_, rfl, ?_⟩
  unfold updateRow paidAtClause
  simp [hstatus, isPaidLiteral]

/-- Closed witness for C10: re-confirming the already-paid sample record with
`status = 'paid'` refreshes `paid_at` to the new timestamp. -/
theorem C10_status_paid_always_refreshes_paid_at_witness :
    samplePaidDb.invoices.find? (fun x => x.id = 1) = some samplePaidRow ∧
    samplePaidRow.status = Json.str "paid" ∧
    payloadAssign [("status", some (Json.str "paid"))] "status" = some (Json.str "paid") ∧
    ∃ d, (updateInvoice samplePaidDb 1 [("status", some (Json.str "paid"))] "t9").2 = some d ∧
      d.invoice.paid_at = Json.str "t9" :=
  ⟨rfl, rfl, rfl,
   C10_status_paid_always_refreshes_paid_at samplePaidDb 1
     [("status", some (Json.str "paid"))] "t9" samplePaidRow rfl rfl⟩

/-- C1: for an existing record and a partial update payload over the
editable-field set, `update` returns a record whose `manually_edited_fields`
set contains every previously recorded field and every key of the payload
(hence also keys set to the value the column already holds), and whose columns
for the payload's keys hold exactly the payload's values, an explicit null
included. -/
theorem C1_update_merges_provenance_and_applies_values (db : Db) (id : Nat)
    (U : List (String × Json)) (now : String) (r : InvoiceRow)
    (hfind : db.invoices.find? (fun x => x.id = id) = some r)
    (hkeys : ∀ p ∈ U, p.1 ∈ editableFields) :
    ∃ d, (updateInvoice db id (toPayload U) now).2 = some d ∧
      (∀ f, (f ∈ (parseManuallyEditedFields r.manually_edited_fields).getD [] ∨
             f ∈ U.map (fun p => p.1)) →
        f ∈ d.invoice.manually_edited_fields.getD []) ∧
      (∀ f v, objGet U f = some v → columnVal d.invoice f = some v) := by
  rw [updateInvoice_of_find db id (toPayload U) now r hfind]
  refine ⟨_, rfl, ?_, ?_⟩
  · intro f hf
    show f ∈ (updateRow _ _ _ _ r).manually_edited_fields.getD []
    unfold updateRow
    simp only [Option.getD_some, mem_dedupFirst, List.mem_append, keys_toPayload]
    exact hf
  · intro f v hv
    exact columnVal_updateRow_assigned _ _ _ _ _ f v
      (hkeys (f, v) (mem_of_objGet hv))
      ((payloadAssign_toPayload U f).trans hv)

/-- Closed witness for C1: updating the sample record's supplier to an explicit
null and its amount to the value it already holds. -/
theorem C1_update_merges_provenance_and_applies_values_witness :
    sampleDb.invoices.find? (fun x => x.id = 1) = some sampleRow ∧
    (∀ p ∈ [("supplier", Json.null), ("amount", Json.num 10)], p.1 ∈ editableFields) ∧
    sampleRow.amount = Json.num 10 ∧
    ∃ d, (updateInvoice sampleDb 1
            (toPayload [("supplier", Json.null), ("amount", Json.num 10)]) "t5").2 = some d ∧
      (∀ f, (f ∈ (parseManuallyEditedFields sampleRow.manually_edited_fields).getD [] ∨
             f ∈ [("supplier", Json.null), ("amount", Json.num 10)].map (fun p => p.1)) →
        f ∈ d.invoice.manually_edited_fields.getD []) ∧
      (∀ f v, objGet [("supplier", Json.null), ("amount", Json.num 10)] f = some v →
        columnVal d.invoice f = some v) :=
  ⟨rfl, by decide, rfl,
   C1_update_merges_provenance_and_applies_values sampleDb 1
     [("supplier", Json.null), ("amount", Json.num 10)] "t5" sampleRow rfl (by decide)⟩

/-- Keys other than the removed legacy `paid` flag survive the PATCH handler's
legacy-flag translation. -/
theorem mem_keys_applyLegacyPaid {body : Payload} {k : String}
    (hk : k ∈ body.map (fun p => p.1)) (hne : k ≠ "paid") :
    k ∈ (applyLegacyPaid body).map (fun p => p.1) := by
  obtain ⟨p, hp, rfl⟩ := List.mem_map.mp hk
  unfold applyLegacyPaid legacySetStatus
  by_cases hcond : legacyPaidCond body = true
  · rw [if_pos hcond]
    by_cases hstat : body.any (fun q => q.1 = "status")
    · rw [if_pos hstat]
      refine List.mem_map.mpr ?_
      by_cases hps : p.1 = "status"
      · refine ⟨("status", some (Json.str "paid")), ?_, by simpa using hps.symm⟩
        refine List.mem_filter.mpr ⟨List.mem_map.mpr ⟨p, hp, by rw [if_pos hps]⟩, ?_⟩
        simp
      · refine ⟨p, ?_, rfl⟩
        refine List.mem_filter.mpr ⟨List.mem_map.mpr ⟨p, hp, by rw [if_neg hps]⟩, ?_⟩
        simpa using hne
    · rw [if_neg hstat]
      refine List.mem_map.mpr ⟨p, ?_, rfl⟩
      refine List.mem_filter.mpr ⟨List.mem_append.mpr (Or.inl hp), by simpa using hne⟩
  · rw [if_neg hcond]
    refine List.mem_map.mpr ⟨p, ?_, rfl⟩
    exact List.mem_filter.mpr ⟨hp, by simpa using hne⟩

/-- The legacy `paid` key never survives the PATCH handler. -/
theorem paid_not_mem_applyLegacyPaid (body : Payload) :
    "paid" ∉ (applyLegacyPaid body).map (fun p => p.1) := by
  intro hmem
  obtain ⟨p, hp, hk⟩ := List.mem_map.mp hmem
  have := (List.mem_filter.mp (by
    unfold applyLegacyPaid at hp
    exact hp)).2
  simp only [decide_not, Bool.not_eq_true', decide_eq_false_iff_not] at this
  exact this hk

/-- C9: every key present on the PATCH body — editable or not, defined or
`undefined` — other than the removed legacy `paid` flag is merged into the
persisted provenance set, while column assignments happen only for editable
fields actually present with a defined value: any editable column whose field
is absent from the processed payload keeps its value. -/
theorem C9_raw_payload_keys_merged_columns_guarded (db : Db) (id : Nat)
    (body : Payload) (now : String) (r : InvoiceRow)
    (hfind : db.invoices.find? (fun x => x.id = id) = some r) :
    ∃ d, (updateInvoice db id (applyLegacyPaid body) now).2 = some d ∧
      (∀ k ∈ body.map (fun p => p.1), k ≠ "paid" →
        k ∈ d.invoice.manually_edited_fields.getD []) ∧
      "paid" ∉ (applyLegacyPaid body).map (fun p => p.1) ∧
      (∀ f ∈ editableFields, payloadAssign (applyLegacyPaid body) f = none →
        columnVal d.invoice f = columnVal r f) := by
  rw [updateInvoice_of_find db id (applyLegacyPaid body) now r hfind]
  refine ⟨_, rfl, ?_, paid_not_mem_applyLegacyPaid body, ?_⟩
  · intro k hk hne
    show k ∈ (updateRow _ _ _ _ r).manually_edited_fields.getD []
    unfold updateRow
    simp only [Option.getD_some, mem_dedupFirst, List.mem_append]
    exact Or.inr (mem_keys_applyLegacyPaid hk hne)
  · intro f hf hnone
    exact columnVal_updateRow_unassigned _ _ _ _ _ f hf hnone

/-- Closed witness for C9: a body carrying an unknown key, an editable key with
an `undefined` value, and the legacy `paid` flag. -/
theorem C9_raw_payload_keys_merged_columns_guarded_witness :
    sampleDb.invoices.find? (fun x => x.id = 1) = some sampleRow ∧
    ∃ d, (updateInvoice sampleDb 1
            (applyLegacyPaid [("nonsense", some (Json.num 1)), ("supplier", none),
                              ("paid", some (Json.bool true))]) "t6").2 = some d ∧
      (∀ k ∈ [("nonsense", some (Json.num 1)), ("supplier", none),
              ("paid", some (Json.bool true))].map (fun p => (p : String × Option Json).1),
        k ≠ "paid" → k ∈ d.invoice.manually_edited_fields.getD []) ∧
      "paid" ∉ (applyLegacyPaid [("nonsense", some (Json.num 1)), ("supplier", none),
                                 ("paid", some (Json.bool true))]).map (fun p => p.1) ∧
      (∀ f ∈ editableFields,
        payloadAssign (applyLegacyPaid [("nonsense", some (Json.num 1)), ("supplier", none),
                                        ("paid", some (Json.bool true))]) f = none →
        columnVal d.invoice f = columnVal sampleRow f) :=
  ⟨rfl,
   C9_raw_payload_keys_merged_columns_guarded sampleDb 1
     [("nonsense", some (Json.num 1)), ("supplier", none), ("paid", some (Json.bool true))]
     "t6" sampleRow rfl⟩

/-- Record update of `manually_edited_fields` to the value it already holds is
the identity. -/
theorem setMef_self (x : InvoiceRow) (v : Option (List String))
    (h : x.manually_edited_fields = v) :
    ({ x with manually_edited_fields := v } : InvoiceRow) = x := by
  cases h
  rfl

theorem db_set_invoices_self (db : Db) (inv : List InvoiceRow) (h : inv = db.invoices) :
    ({ db with invoices := inv } : Db) = db := by
  cases h
  rfl

/-- Specialization of `updateInvoice_of_find` to the empty payload: the only
set clause left is the unconditional rewrite of `manually_edited_fields`. -/
theorem updateInvoice_nil_of_find (db : Db) (id : Nat) (now : String)
    (cur : InvoiceRow) (hfind : db.invoices.find? (fun r => r.id = id) = some cur) :
    updateInvoice db id [] now =
      ({ db with invoices := db.invoices.map (fun x =>
           if x.id = id then
             { x with
                 manually_edited_fields := some (dedupFirst (cur.manually_edited_fields.getD [])) }
           else x) },
       some { invoice := { cur with
                manually_edited_fields := some (dedupFirst (cur.manually_edited_fields.getD [])) }
              source_files := db.source_files.filter
                (fun s => s.message_id = cur.message_id) }) := by
  rw [updateInvoice_of_find db id [] now cur hfind]
  simp only [List.map_nil, List.append_nil]
  rfl

/-- Counterexample to C6 as stated: an empty update on a freshly inserted
record (whose `manually_edited_fields` column is NULL) rewrites that column to
the serialization of the empty set, a changed column value. -/
theorem C6_empty_update_changes_null_provenance_cex :
    (updateInvoice sampleDb 1 [] "t2").1.invoices.map
        (fun x => x.manually_edited_fields) = [some []] ∧
    sampleDb.invoices.map (fun x => x.manually_edited_fields) = [none] ∧
    (some [] : Option (List String)) ≠ none ∧
    (updateInvoice sampleDb 1 [] "t2").1 ≠ sampleDb := by
  refine ⟨rfl, rfl, by simp, ?_⟩
  intro h
  have hc := congrArg (fun d => d.invoices.map (fun x => x.manually_edited_fields)) h
  simp only at hc
  rw [show (updateInvoice sampleDb 1 [] "t2").1.invoices.map
        (fun x => x.manually_edited_fields) = [some []] from rfl] at hc
  rw [show sampleDb.invoices.map (fun x => x.manually_edited_fields) = [none] from rfl] at hc
  simp at hc

/-- C6 as amended: an empty update on an existing record never fails, touches
no column other than `manually_edited_fields` — which it rewrites to the
serialization of the parsed-or-empty provenance set — and every further empty
update returns the identical database and record; when the stored set is
already a serialized duplicate-free list, even the first call changes
nothing. -/
theorem C6_empty_update_idempotent_after_first (db : Db) (id : Nat)
    (now now' : String) (r : InvoiceRow) (hwf : wfDb db)
    (hfind : db.invoices.find? (fun x => x.id = id) = some r) :
    ∃ db₁ d, updateInvoice db id [] now = (db₁, some d) ∧
      d.invoice = { r with
        manually_edited_fields := some (dedupFirst (r.manually_edited_fields.getD [])) } ∧
      (∀ x ∈ db₁.invoices, x.id ≠ id → x ∈ db.invoices) ∧
      db₁.source_files = db.source_files ∧
      updateInvoice db₁ id [] now' = (db₁, some d) ∧
      (∀ l, r.manually_edited_fields = some l → l.Nodup → db₁ = db) := by
  have hrid : r.id = id := by simpa using List.find?_some hfind
  rw [updateInvoice_nil_of_find db id now r hfind]
  set m₀ := dedupFirst (r.manually_edited_fields.getD []) with hm₀
  set g : InvoiceRow → InvoiceRow :=
    fun x => if x.id = id then { x with manually_edited_fields := some m₀ } else x with hgdef
  have hgid : ∀ x, (g x).id = x.id := by
    intro x
    by_cases h : x.id = id <;> simp [hgdef, h]
  have hgg : ∀ x, g (g x) = g x := by
    intro x
    by_cases h : x.id = id <;> simp [hgdef, h]
  refine ⟨_, _, rfl, ?_, ?_, rfl, ?_, ?_⟩
  · rfl
  · intro x hx hxid
    simp only [List.mem_map] at hx
    obtain ⟨y, hy, rfl⟩ := hx
    by_cases h : y.id = id
    · rw [show (g y).id = y.id from hgid y, h] at hxid
      exact absurd rfl hxid
    · simpa [hgdef, h] using hy
  · -- the second empty update is the identity on the updated database
    have hfind₁ : (db.invoices.map g).find? (fun x => x.id = id) = some (g r) := by
      rw [find?_id_map g hgid, hfind]
      rfl
    have hgr : g r = { r with manually_edited_fields := some m₀ } := by
      simp [hgdef, hrid]
    have hidem : dedupFirst m₀ = m₀ := by
      rw [hm₀]
      exact dedupFirst_idem _
    have hstep := updateInvoice_nil_of_find
      { db with invoices := db.invoices.map g } id now' (g r) hfind₁
    rw [hgr] at hstep
    simp only [Option.getD_some, hidem] at hstep
    rw [hstep, ← hgdef]
    have hmap : (db.invoices.map g).map g = db.invoices.map g := by
      rw [List.map_map]
      exact List.map_congr_left (fun x _ => hgg x)
    have hA : ({ { db with invoices := db.invoices.map g } with
        invoices := (db.invoices.map g).map g } : Db) =
        { db with invoices := db.invoices.map g } :=
      db_set_invoices_self { db with invoices := db.invoices.map g }
        ((db.invoices.map g).map g) hmap
    rw [hA]
  · intro l hl hnodup
    have hml : m₀ = l := by rw [hm₀, hl]; exact dedupFirst_eq_self hnodup
    apply db_set_invoices_self
    have : ∀ x ∈ db.invoices, g x = x := by
      intro x hx
      by_cases h : x.id = id
      · have hxr : x = r := eq_of_mem_of_find? hwf hfind hx h
        subst hxr
        rw [hgdef]
        simp only [if_pos h]
        exact setMef_self x (some m₀) (by rw [hml, hl])
      · simp [hgdef, h]
    exact (List.map_congr_left this).trans (List.map_id db.invoices)

/-- Closed witness for the amended C6 at the sample database. -/
theorem C6_empty_update_idempotent_after_first_witness :
    wfDb sampleDb ∧
    sampleDb.invoices.find? (fun x => x.id = 1) = some sampleRow ∧
    ∃ db₁ d, updateInvoice sampleDb 1 [] "t2" = (db₁, some d) ∧
      d.invoice = { sampleRow with
        manually_edited_fields := some (dedupFirst (sampleRow.manually_edited_fields.getD [])) } ∧
      (∀ x ∈ db₁.invoices, x.id ≠ 1 → x ∈ sampleDb.invoices) ∧
      db₁.source_files = sampleDb.source_files ∧
      updateInvoice db₁ 1 [] "t3" = (db₁, some d) ∧
      (∀ l, sampleRow.manually_edited_fields = some l → l.Nodup → db₁ = sampleDb) := by
  have hwf : wfDb sampleDb := by
    constructor
    · intro r hr
      simp only [sampleDb, List.mem_singleton] at hr
      subst hr
      decide
    · simp [sampleDb]
  exact ⟨hwf, rfl,
    C6_empty_update_idempotent_after_first sampleDb 1 "t2" "t3" sampleRow hwf rfl⟩

/-- An extraction whose amount is the falsy number `0`. -/
def exZero : InvoiceExtraction :=
  { items := Json.arr []
    supplier := Json.null
    amount := Json.num 0
    currency := Json.null
    invoiceId := Json.null
    accountIBAN := Json.null
    accountBIC := Json.null
    accountREG := Json.null
    accountNumber := Json.null
    lastPaymentDate := Json.null
    sourceFileReference := Json.null }

/-- Counterexample to C3 as stated: `insertInvoice` binds every extraction
field as `extraction.f || null`, so an amount of `0` is stored — and read back —
as NULL rather than copied verbatim. -/
theorem C3_insert_roundtrip_cex :
    exZero.amount = Json.num 0 ∧
    (match insertInvoice emptyDb "m1" exZero [] "t0" with
     | Except.ok (db', row) => (getInvoiceById db' row.id).map (fun d => d.invoice.amount)
     | Except.error _ => none) = some Json.null ∧
    Json.null ≠ Json.num 0 :=
  ⟨rfl, rfl, by simp⟩

/-- C3 as amended: an `insert` immediately followed by `getById` on the new id
returns a record whose extraction-derived columns equal the inserted extraction
after JavaScript falsy coercion (`f || null`): falsy values (null, 0, the empty
string, false) become NULL and all others are copied; `items` is serialized
into `items_json` only when non-empty; `status` defaults to `'unpaid'` and
`paid_at`, `account_balance` and `manually_edited_fields` start NULL; the
returned `source_files` list equals the mapped input source files. -/
theorem C3_insert_roundtrip_falsy_coerced (db : Db) (messageId : String)
    (ex : InvoiceExtraction) (sf : List SourceFileInput) (now : String)
    (hid : ∀ r ∈ db.invoices, r.id < db.nextId)
    (hmid : ∀ r ∈ db.invoices, r.message_id ≠ messageId)
    (hsf : ∀ s ∈ db.source_files, s.message_id ≠ messageId) :
    ∃ db' row, insertInvoice db messageId ex sf now = Except.ok (db', row) ∧
      ∃ d, getInvoiceById db' row.id = some d ∧
        d.invoice.message_id = messageId ∧
        d.invoice.supplier = jsOrNull ex.supplier ∧
        d.invoice.amount = jsOrNull ex.amount ∧
        d.invoice.currency = jsOrNull ex.currency ∧
        d.invoice.invoice_id = jsOrNull ex.invoiceId ∧
        d.invoice.account_to_pay_IBAN = jsOrNull ex.accountIBAN ∧
        d.invoice.account_to_pay_BIC = jsOrNull ex.accountBIC ∧
        d.invoice.account_to_pay_REG = jsOrNull ex.accountREG ∧
        d.invoice.account_to_pay_ACCOUNT_NUMBER = jsOrNull ex.accountNumber ∧
        d.invoice.last_payment_date = jsOrNull ex.lastPaymentDate ∧
        d.invoice.items_json =
          (if !(jsFalsy ex.items) && jsLengthPos ex.items then some ex.items else none) ∧
        d.invoice.status = Json.str "unpaid" ∧
        d.invoice.paid_at = Json.null ∧
        d.invoice.account_balance = Json.null ∧
        d.invoice.manually_edited_fields = none ∧
        d.source_files.map (fun s => (s.filename, s.blob_uri)) =
          sf.map (fun f => (f.filename, f.blob_uri)) ∧
        (∀ s ∈ d.source_files, s.message_id = messageId) := by
  have hdup : db.invoices.any (fun r => r.message_id = messageId) = false := by
    rw [List.any_eq_false]
    intro r hr
    simpa using hmid r hr
  unfold insertInvoice
  rw [if_neg (by rw [hdup]; exact Bool.false_ne_true)]
  refine ⟨_, _, rfl, ?_⟩
  have hnone : db.invoices.find? (fun x => x.id = db.nextId) = none := by
    rw [List.find?_eq_none]
    intro r hr
    simpa using Nat.ne_of_lt (hid r hr)
  have hfind : (db.invoices ++ [insertedRow db messageId ex now]).find?
      (fun x => x.id = (insertedRow db messageId ex now).id) =
      some (insertedRow db messageId ex now) := by
    rw [show (insertedRow db messageId ex now).id = db.nextId from rfl]
    rw [find?_append_none _ _ _ hnone]
    exact List.find?_cons_of_pos _ (by simp [insertedRow])
  refine ⟨_, getInvoiceById_of_find _ _ _ hfind, rfl, rfl, rfl, rfl, rfl, rfl, rfl, rfl, rfl,
    rfl, rfl, rfl, rfl, rfl, rfl, ?_, ?_⟩
  · show ((db.source_files ++ insertedSourceFiles messageId sf now).filter
        (fun s => s.message_id = (insertedRow db messageId ex now).message_id)).map
          (fun s => (s.filename, s.blob_uri)) =
      sf.map (fun f => (f.filename, f.blob_uri))
    rw [show (insertedRow db messageId ex now).message_id = messageId from rfl,
      List.filter_append]
    have h1 : db.source_files.filter (fun s => decide (s.message_id = messageId)) = [] := by
      rw [List.filter_eq_nil_iff]
      intro s hs
      simpa using hsf s hs
    have h2 : (insertedSourceFiles messageId sf now).filter
          (fun s => decide (s.message_id = messageId)) =
        insertedSourceFiles messageId sf now := by
      rw [List.filter_eq_self]
      intro s hs
      obtain ⟨f, -, rfl⟩ := List.mem_map.mp hs
      simp
    rw [h1, h2, List.nil_append]
    unfold insertedSourceFiles
    rw [List.map_map]
    rfl
  · intro s hs
    have hs' := List.mem_filter.mp hs
    simpa using hs'.2

/-- Closed witness for the amended C3: inserting a concrete extraction into the
empty database and reading it back. -/
theorem C3_insert_roundtrip_falsy_coerced_witness :
    (∀ r ∈ emptyDb.invoices, r.id < emptyDb.nextId) ∧
    (∀ r ∈ emptyDb.invoices, r.message_id ≠ "m9") ∧
    (∀ s ∈ emptyDb.source_files, s.message_id ≠ "m9") ∧
    ∃ db' row,
      insertInvoice emptyDb "m9"
        { items := Json.arr [Json.str "hosting"], supplier := Json.str "Acme",
          amount := Json.num 150, currency := Json.str "DKK", invoiceId := Json.null,
          accountIBAN := Json.null, accountBIC := Json.null, accountREG := Json.null,
          accountNumber := Json.null, lastPaymentDate := Json.null,
          sourceFileReference := Json.str "a.pdf" }
        [{ filename := "a.pdf", blob_uri := "bronze/T/m9/a.pdf" }] "t0" =
        Except.ok (db', row) ∧
      ∃ d, getInvoiceById db' row.id = some d ∧
        d.invoice.message_id = "m9" ∧
        d.invoice.supplier = jsOrNull (Json.str "Acme") ∧
        d.invoice.amount = jsOrNull (Json.num 150) ∧
        d.invoice.currency = jsOrNull (Json.str "DKK") ∧
        d.invoice.invoice_id = jsOrNull Json.null ∧
        d.invoice.account_to_pay_IBAN = jsOrNull Json.null ∧
        d.invoice.account_to_pay_BIC = jsOrNull Json.null ∧
        d.invoice.account_to_pay_REG = jsOrNull Json.null ∧
        d.invoice.account_to_pay_ACCOUNT_NUMBER = jsOrNull Json.null ∧
        d.invoice.last_payment_date = jsOrNull Json.null ∧
        d.invoice.items_json =
          (if !(jsFalsy (Json.arr [Json.str "hosting"])) && jsLengthPos (Json.arr [Json.str "hosting"]) then
            some (Json.arr [Json.str "hosting"]) else none) ∧
        d.invoice.status = Json.str "unpaid" ∧
        d.invoice.paid_at = Json.null ∧
        d.invoice.account_balance = Json.null ∧
        d.invoice.manually_edited_fields = none ∧
        d.source_files.map (fun s => (s.filename, s.blob_uri)) =
          [{ filename := "a.pdf", blob_uri := "bronze/T/m9/a.pdf" }].map
            (fun f => ((f : SourceFileInput).filename, f.blob_uri)) ∧
        (∀ s ∈ d.source_files, s.message_id = "m9") := by
  refine ⟨by simp [emptyDb], by simp [emptyDb], by simp [emptyDb], ?_⟩
  exact C3_insert_roundtrip_falsy_coerced emptyDb "m9" _ _ "t0"
    (by simp [emptyDb]) (by simp [emptyDb]) (by simp [emptyDb])

/-- Counterexample to C4 as stated: the failure fallback computes
`sourceFiles[0] || null`, so a document list whose first filename is the empty
string yields a null `sourceFileReference`, not that filename. -/
theorem C4_empty_filename_fallback_cex :
    (extractInvoiceInfo (fun _ => none) LlmOutcome.throw
        [{ filename := "", content := "body" }]).sourceFileReference = Json.null ∧
    Json.null ≠ Json.str "" :=
  ⟨rfl, by simp⟩

/-- The failure cases of `extractInvoiceInfo`: a throwing model call, no regex
match in the response, or a throwing `JSON.parse` on the matched substring. -/
def extractFailureCase (jsonParse : String → Option Json) (llm : LlmOutcome) : Prop :=
  llm = LlmOutcome.throw ∨
  ∃ text, llm = LlmOutcome.response text ∧
    (jsonMatch text.data = none ∨
     ∃ m, jsonMatch text.data = some m ∧ jsonParse (String.mk m) = none)

/-- C4 as amended: when the LLM call throws or no JSON object is found (or the
decode fails), `extract` returns the all-null extraction with an empty items
list, never propagating the failure; its `sourceFileReference` is the first
input document's filename when that filename is non-empty, and null when the
document list is empty or its first filename is the empty string. -/
theorem C4_failure_resolves_to_fallback (jsonParse : String → Option Json)
    (llm : LlmOutcome) (docs : List MarkdownFile)
    (hfail : extractFailureCase jsonParse llm) :
    extractInvoiceInfo jsonParse llm docs =
      fallbackExtraction (docs.map (fun f => f.filename)) ∧
    (extractInvoiceInfo jsonParse llm docs).items = Json.arr [] ∧
    (extractInvoiceInfo jsonParse llm docs).supplier = Json.null ∧
    (extractInvoiceInfo jsonParse llm docs).amount = Json.null ∧
    (extractInvoiceInfo jsonParse llm docs).currency = Json.null ∧
    (extractInvoiceInfo jsonParse llm docs).invoiceId = Json.null ∧
    (extractInvoiceInfo jsonParse llm docs).accountIBAN = Json.null ∧
    (extractInvoiceInfo jsonParse llm docs).accountBIC = Json.null ∧
    (extractInvoiceInfo jsonParse llm docs).accountREG = Json.null ∧
    (extractInvoiceInfo jsonParse llm docs).accountNumber = Json.null ∧
    (extractInvoiceInfo jsonParse llm docs).lastPaymentDate = Json.null ∧
    (extractInvoiceInfo jsonParse llm docs).sourceFileReference =
      (match docs with
       | [] => Json.null
       | dd :: _ => if dd.filename = "" then Json.null else Json.str dd.filename) := by
  have hfb : extractInvoiceInfo jsonParse llm docs =
      fallbackExtraction (docs.map (fun f => f.filename)) := by
    rcases hfail with rfl | ⟨text, rfl, hcase⟩
    · rfl
    · rcases hcase with hnone | ⟨m, hm, hp⟩
      · simp only [extractInvoiceInfo]
        rw [hnone]
      · simp only [extractInvoiceInfo, hm, hp]
  refine ⟨hfb, ?_, ?_, ?_, ?_, ?_, ?_, ?_, ?_, ?_, ?_, ?_⟩ <;> rw [hfb]
  case _ => rfl
  case _ => rfl
  case _ => rfl
  case _ => rfl
  case _ => rfl
  case _ => rfl
  case _ => rfl
  case _ => rfl
  case _ => rfl
  case _ => rfl
  case _ => cases docs with
    | nil => rfl
    | cons dd tl => rfl

/-- Closed witness for the amended C4: a throwing model call over one PDF
document. -/
theorem C4_failure_resolves_to_fallback_witness :
    extractFailureCase (fun _ => none) LlmOutcome.throw ∧
    (extractInvoiceInfo (fun _ => none) LlmOutcome.throw
        [{ filename := "invoice.pdf", content := "c" }] =
      fallbackExtraction ([{ filename := "invoice.pdf", content := "c" }].map
        (fun f => (f : MarkdownFile).filename)) ∧
    (extractInvoiceInfo (fun _ => none) LlmOutcome.throw
        [{ filename := "invoice.pdf", content := "c" }]).items = Json.arr [] ∧
    (extractInvoiceInfo (fun _ => none) LlmOutcome.throw
        [{ filename := "invoice.pdf", content := "c" }]).supplier = Json.null ∧
    (extractInvoiceInfo (fun _ => none) LlmOutcome.throw
        [{ filename := "invoice.pdf", content := "c" }]).amount = Json.null ∧
    (extractInvoiceInfo (fun _ => none) LlmOutcome.throw
        [{ filename := "invoice.pdf", content := "c" }]).currency = Json.null ∧
    (extractInvoiceInfo (fun _ => none) LlmOutcome.throw
        [{ filename := "invoice.pdf", content := "c" }]).invoiceId = Json.null ∧
    (extractInvoiceInfo (fun _ => none) LlmOutcome.throw
        [{ filename := "invoice.pdf", content := "c" }]).accountIBAN = Json.null ∧
    (extractInvoiceInfo (fun _ => none) LlmOutcome.throw
        [{ filename := "invoice.pdf", content := "c" }]).accountBIC = Json.null ∧
    (extractInvoiceInfo (fun _ => none) LlmOutcome.throw
        [{ filename := "invoice.pdf", content := "c" }]).accountREG = Json.null ∧
    (extractInvoiceInfo (fun _ => none) LlmOutcome.throw
        [{ filename := "invoice.pdf", content := "c" }]).accountNumber = Json.null ∧
    (extractInvoiceInfo (fun _ => none) LlmOutcome.throw
        [{ filename := "invoice.pdf", content := "c" }]).lastPaymentDate = Json.null ∧
    (extractInvoiceInfo (fun _ => none) LlmOutcome.throw
        [{ filename := "invoice.pdf", content := "c" }]).sourceFileReference =
      (match ([{ filename := "invoice.pdf", content := "c" }] : List MarkdownFile) with
       | [] => Json.null
       | dd :: _ => if dd.filename = "" then Json.null else Json.str dd.filename)) :=
  ⟨Or.inl rfl,
   C4_failure_resolves_to_fallback (fun _ => none) LlmOutcome.throw
     [{ filename := "invoice.pdf", content := "c" }] (Or.inl rfl)⟩

theorem dropUntilChar_decomp {c : Char} :
    ∀ {cs suf : List Char}, dropUntilChar c cs = some suf →
      ∃ pre, cs = pre ++ suf ∧ c ∉ pre ∧ suf.head? = some c := by
  intro cs
  induction cs with
  | nil => intro suf h; cases h
  | cons a as ih =>
    intro suf h
    unfold dropUntilChar at h
    by_cases ha : a = c
    · rw [if_pos ha] at h
      injection h with h
      subst h
      exact ⟨[], by simp, by simp, by simp [ha]⟩
    · rw [if_neg ha] at h
      obtain ⟨pre, heq, hpre, hhead⟩ := ih h
      refine ⟨a :: pre, by rw [heq, List.cons_append], ?_, hhead⟩
      intro hc
      rcases List.mem_cons.mp hc with rfl | hc'
      · exact ha rfl
      · exact hpre hc'

/-- The substring selected by the greedy regex runs from the first open brace
of the text to its last close brace. -/
theorem jsonMatch_decomp {cs m : List Char} (h : jsonMatch cs = some m) :
    ∃ pre post, cs = pre ++ m ++ post ∧ '\x7b' ∉ pre ∧ '\x7d' ∉ post ∧
      m.head? = some '\x7b' ∧ m.getLast? = some '\x7d' := by
  unfold jsonMatch at h
  cases h1 : dropUntilChar '\x7b' cs with
  | none => simp only [h1] at h; cases h
  | some suffix =>
    simp only [h1] at h
    cases h2 : dropUntilChar '\x7d' suffix.reverse with
    | none => simp only [h2] at h; cases h
    | some revM =>
      simp only [h2, Option.some.injEq] at h
      obtain ⟨pre, hcs, hpre, hheadsuf⟩ := dropUntilChar_decomp h1
      obtain ⟨pre₂, hsufrev, hpre₂, hheadrev⟩ := dropUntilChar_decomp h2
      have hsuffix : suffix = revM.reverse ++ pre₂.reverse := by
        have hr := congrArg List.reverse hsufrev
        simpa using hr
      have hne : revM ≠ [] := by
        intro h0
        rw [h0] at hheadrev
        cases hheadrev
      refine ⟨pre, pre₂.reverse, ?_, hpre, ?_, ?_, ?_⟩
      · rw [hcs, hsuffix, ← h, List.append_assoc]
      · intro hc
        rw [List.mem_reverse] at hc
        exact hpre₂ hc
      · rw [← h]
        cases hrm : revM.reverse with
        | nil => exact absurd (by simpa using hrm) hne
        | cons b t =>
          rw [hsuffix, hrm] at hheadsuf
          simpa using hheadsuf
      · rw [← h, List.getLast?_reverse]
        exact hheadrev

/-- A response in which the model wraps a JSON object in prose that itself
contains a closing brace. -/
def proseWrapped : String := "\x7b\"supplier\":\"A\"\x7d x\x7d"

/-- The first balanced-brace object substring of `proseWrapped`. -/
def balancedObj : String := "\x7b\"supplier\":\"A\"\x7d"

/-- A concrete decoder agreeing with `JSON.parse` on the two relevant inputs:
the balanced object decodes, the greedy substring (prose included) throws. -/
def proseWrappedParse : String → Option Json :=
  fun s => if s = balancedObj then some (Json.obj [("supplier", Json.str "A")]) else none

/-- Counterexample to C5 as stated: on a response wrapping the object in prose
containing a stray closing brace, the code's greedy regex hands `JSON.parse` a
non-JSON substring and falls back to all-null, whereas parsing the first
balanced-brace object (as the claim describes) would succeed. -/
theorem C5_greedy_regex_cex :
    firstBalancedBraces proseWrapped.data = some balancedObj.data ∧
    (extractInvoiceInfoSpec proseWrappedParse (LlmOutcome.response proseWrapped)
        [{ filename := "a.pdf", content := "c" }]).supplier = Json.str "A" ∧
    (extractInvoiceInfo proseWrappedParse (LlmOutcome.response proseWrapped)
        [{ filename := "a.pdf", content := "c" }]).supplier = Json.null ∧
    Json.null ≠ Json.str "A" :=
  ⟨rfl, rfl, rfl, by simp⟩

/-- C5 as amended: `extract()` hands `JSON.parse` the substring running from
the first opening brace of the response to its last closing brace (the greedy
match), not the first balanced object; the result is the coerced decode of that
substring, or the all-null fallback when it fails to decode. -/
theorem C5_parses_greedy_brace_substring (jsonParse : String → Option Json)
    (docs : List MarkdownFile) (cs m : List Char) (h : jsonMatch cs = some m) :
    (∃ pre post, cs = pre ++ m ++ post ∧ '\x7b' ∉ pre ∧ '\x7d' ∉ post ∧
      m.head? = some '\x7b' ∧ m.getLast? = some '\x7d') ∧
    extractInvoiceInfo jsonParse (LlmOutcome.response (String.mk cs)) docs =
      (match jsonParse (String.mk m) with
       | some extracted => coerceExtraction extracted (docs.map (fun f => f.filename))
       | none => fallbackExtraction (docs.map (fun f => f.filename))) := by
  refine ⟨jsonMatch_decomp h, ?_⟩
  simp only [extractInvoiceInfo]
  rw [h]

/-- Closed witness for the amended C5 at the prose-wrapped response, where the
greedy match is the whole response text. -/
theorem C5_parses_greedy_brace_substring_witness :
    jsonMatch proseWrapped.data = some proseWrapped.data ∧
    ((∃ pre post, proseWrapped.data = pre ++ proseWrapped.data ++ post ∧
        '\x7b' ∉ pre ∧ '\x7d' ∉ post ∧
        proseWrapped.data.head? = some '\x7b' ∧
        proseWrapped.data.getLast? = some '\x7d') ∧
    extractInvoiceInfo proseWrappedParse
        (LlmOutcome.response (String.mk proseWrapped.data))
        [{ filename := "a.pdf", content := "c" }] =
      (match proseWrappedParse (String.mk proseWrapped.data) with
       | some extracted => coerceExtraction extracted
           ([{ filename := "a.pdf", content := "c" }].map
             (fun f => (f : MarkdownFile).filename))
       | none => fallbackExtraction
           ([{ filename := "a.pdf", content := "c" }].map
             (fun f => (f : MarkdownFile).filename)))) :=
  ⟨rfl,
   C5_parses_greedy_brace_substring proseWrappedParse
     [{ filename := "a.pdf", content := "c" }] proseWrapped.data proseWrapped.data rfl⟩

/-- Counterexample to C8 as stated: the message id is not stripped but has its
offending characters replaced by underscores, and the bronze layer interpolates
the attachment filename verbatim, with no sanitization at all. -/
theorem C8_bronze_filename_unsanitized_cex :
    getBronzePath "T" "a.b" "x y" = "bronze/T/a_b/x y" ∧
    bronzePathSpec "T" "a.b" "x y" = "bronze/T/ab/xy" ∧
    getBronzePath "T" "a.b" "x y" ≠ bronzePathSpec "T" "a.b" "x y" :=
  ⟨rfl, rfl, by decide⟩

/-- C8 as amended: all three layers build their paths from a message id whose
non-alphanumeric characters are replaced by underscores; a filename has its
characters outside alphanumerics and dot/underscore/hyphen replaced by
underscores in the silver layer only, while the bronze layer (including every
path returned by `persistToBronzeLayer`) uses the filename verbatim and the
gold layer uses the fixed name `extracted.json`. -/
theorem C8_sanitization_replaces_in_layers (t m f mid : String)
    (atts : List BronzeAttachment) :
    getBronzePath t m f = "bronze/" ++ t ++ "/" ++ sanitizeMessageId m ++ "/" ++ f ∧
    getSilverPath t m f =
      "silver/" ++ t ++ "/" ++ sanitizeMessageId m ++ "/" ++ sanitizeFilename f ++ ".md" ∧
    getGoldPath t m = "gold/" ++ t ++ "/" ++ sanitizeMessageId m ++ "/extracted.json" ∧
    persistToBronzeLayer mid atts t =
      [getBronzePath t mid "email.raw", getBronzePath t mid "metadata.json"] ++
        atts.map (fun a => getBronzePath t mid a.filename) ∧
    (∀ c ∈ (sanitizeMessageId m).data, c.isAlphanum = true ∨ c = '_') ∧
    (∀ c ∈ (sanitizeFilename f).data,
      c.isAlphanum = true ∨ c = '.' ∨ c = '_' ∨ c = '-') := by
  refine ⟨rfl, rfl, rfl, rfl, ?_, ?_⟩
  · intro c hc
    rw [show (sanitizeMessageId m).data =
      m.data.map (fun c => if c.isAlphanum then c else '_') from rfl] at hc
    obtain ⟨a, -, rfl⟩ := List.mem_map.mp hc
    by_cases ha : a.isAlphanum
    · rw [if_pos ha]
      exact Or.inl ha
    · rw [if_neg ha]
      exact Or.inr rfl
  · intro c hc
    rw [show (sanitizeFilename f).data = f.data.map (fun c =>
      if c.isAlphanum || c = '.' || c = '_' || c = '-' then c else '_') from rfl] at hc
    obtain ⟨a, -, rfl⟩ := List.mem_map.mp hc
    by_cases ha : (a.isAlphanum || a = '.' || a = '_' || a = '-') = true
    · rw [if_pos ha]
      have ha' : ((a.isAlphanum = true ∨ a = '.') ∨ a = '_') ∨ a = '-' := by
        simpa using ha
      tauto
    · rw [if_neg ha]
      exact Or.inr (Or.inr (Or.inl rfl))

/-- Closed witness for the amended C8 at concrete inputs. -/
theorem C8_sanitization_replaces_in_layers_witness :
    getBronzePath "T" "a.b" "x y" =
      "bronze/" ++ "T" ++ "/" ++ sanitizeMessageId "a.b" ++ "/" ++ "x y" ∧
    getSilverPath "T" "a.b" "x y" =
      "silver/" ++ "T" ++ "/" ++ sanitizeMessageId "a.b" ++ "/" ++
        sanitizeFilename "x y" ++ ".md" ∧
    getGoldPath "T" "a.b" = "gold/" ++ "T" ++ "/" ++ sanitizeMessageId "a.b" ++ "/extracted.json" ∧
    persistToBronzeLayer "a.b" [{ filename := "x y", contentType := "text/plain" }] "T" =
      [getBronzePath "T" "a.b" "email.raw", getBronzePath "T" "a.b" "metadata.json"] ++
        [({ filename := "x y", contentType := "text/plain" } : BronzeAttachment)].map
          (fun a => getBronzePath "T" "a.b" a.filename) ∧
    (∀ c ∈ (sanitizeMessageId "a.b").data, c.isAlphanum = true ∨ c = '_') ∧
    (∀ c ∈ (sanitizeFilename "x y").data,
      c.isAlphanum = true ∨ c = '.' ∨ c = '_' ∨ c = '-') :=
  C8_sanitization_replaces_in_layers "T" "a.b" "x y" "a.b"
    [{ filename := "x y", contentType := "text/plain" }]

end Summerhouse
